import Mathlib

/-!
Verification of the kanzo remote-shell core (`kanzo/utils/shell.py`,
`kanzo/utils/strings.py`) via a shallow embedding.

Strings are modelled as `List Char`.  Python's `str.replace` (leftmost,
non-overlapping, replace-all) is embedded as `replaceAll`, including the
empty-pattern behaviour (`"abc".replace("", "X") = "XaXbXcX"`).
-/

namespace Kanzo

abbrev Str := List Char

/-- The shell single-quote character (written via its code point). -/
def squote : Char := Char.ofNat 39

/-- The backslash character. -/
def bslash : Char := Char.ofNat 92

/-- The mask character `*`. -/
def star : Char := Char.ofNat 42

/-- `STR_MASK = '*' * 8` from `kanzo/utils/strings.py`. -/
def STR_MASK : Str := List.replicate 8 star

/-- Boolean list-prefix test (the scan `str.replace` performs at each
position to find an occurrence of the pattern). -/
def isPre : Str → Str → Bool
  | [], _ => true
  | _ :: _, [] => false
  | a :: as, b :: bs => a == b && isPre as bs

/-- Fuelled core of `str.replace` for a non-empty pattern `w`: scan left to
right; at a match emit `m` and continue after the matched region, otherwise
emit the current character and advance.  The fuel is always instantiated
with the length of the scanned string, which suffices. -/
def replaceCoreF (w m : Str) : Nat → Str → Str
  | 0, s => s
  | _ + 1, [] => []
  | fuel + 1, c :: rest =>
    if isPre w (c :: rest) then
      m ++ replaceCoreF w m fuel (rest.drop (w.length - 1))
    else
      c :: replaceCoreF w m fuel rest

/-- `str.replace` for a non-empty pattern. -/
def replaceCore (w m s : Str) : Str := replaceCoreF w m s.length s

/-- Python `s.replace(w, m)`, including the empty-pattern case
(`"abc".replace("", "X") = "XaXbXcX"`). -/
def replaceAll (s w m : Str) : Str :=
  if w = [] then m ++ s.foldr (fun c acc => c :: (m ++ acc)) []
  else replaceCore w m s

/-- The rewrite loop of `mask_string`: `for before, after in replace_list:
word = word.replace(before, after)`. -/
def applyRules (rl : List (Str × Str)) (w : Str) : Str :=
  rl.foldl (fun w p => replaceAll w p.1 p.2) w

/-- `mask_string(unmasked, mask_list, replace_list)` from
`kanzo/utils/strings.py`: skip empty words, rewrite each remaining word by
the replace rules, then replace its occurrences by `STR_MASK`. -/
def mask_string (unmasked : Str) (mask_list : List Str)
    (replace_list : List (Str × Str)) : Str :=
  mask_list.foldl
    (fun masked word =>
      if word = [] then masked
      else replaceAll masked (applyRules replace_list word) STR_MASK)
    unmasked

/-- The `repl_list = [("'", "'\x5c''")]` used by `execute` and
`run_script`: rewrite a single quote to quote–backslash–quote–quote. -/
def pyReplRules : List (Str × Str) :=
  [([squote], [squote, bslash, squote, squote])]

/-- `u'\n'.join(lines)`. -/
def joinNl : List Str → Str
  | [] => []
  | [l] => l
  | l :: l2 :: rest => l ++ Char.ofNat 10 :: joinNl (l2 :: rest)

/-- Splitting a string at newline characters (inverse of `joinNl` on
newline-free lines); used to state that the script body feeds exactly the
bootstrap lines followed by the caller's lines. -/
def splitNl : Str → List Str
  | [] => [[]]
  | c :: rest =>
    if c = Char.ofNat 10 then [] :: splitNl rest
    else
      match splitNl rest with
      | [] => [[c]]
      | l :: ls => (c :: l) :: ls

/-! ## Single-command execution (`RemoteShell.execute`)

The transport is an oracle: `execPattern` says, per `exec_command`
attempt, whether `paramiko.SSHException` is raised (attempts beyond the
list succeed); on a successful attempt the channels returned are
`result`.  `reconnPattern` says, per `reconnect()` call, whether the
reconnect raises (beyond the list it succeeds).  The `while retry:` loop
is modelled with explicit fuel: `none` means the loop is still running
after `fuel` iterations. -/

/-- The remote channels of one successful `exec_command`: the lines later
read from stdout and stderr, and the exit status `recv_exit_status`
returns. -/
structure RemoteResult where
  outLines : List Str
  errLines : List Str
  rc : Nat
  deriving DecidableEq

structure ExecEnv where
  execPattern : List Bool
  reconnPattern : List Bool
  result : RemoteResult
  deriving DecidableEq

def execRaisesAt (env : ExecEnv) (i : Nat) : Bool :=
  (env.execPattern.get? i).getD false

def reconnRaisesAt (env : ExecEnv) (i : Nat) : Bool :=
  (env.reconnPattern.get? i).getD false

/-- How the `while retry:` loop of `execute` can exit. -/
inductive LoopExit where
  /-- The loop condition became false; `recon` reconnects were done and
  `chout` holds the channels of the last successful `exec_command`
  (`none` when no attempt ever succeeded, i.e. `chout` is unbound). -/
  | exited (recon : Nat) (chout : Option RemoteResult)
  /-- The `if not retry: raise RuntimeError(err_msg...)` branch fired. -/
  | raisedConn (recon : Nat)
  /-- A `reconnect()` call inside the loop raised. -/
  | raisedReconn (recon : Nat)
  deriving DecidableEq

/-- The `while retry:` loop of `RemoteShell.execute`
(`kanzo/utils/shell.py` lines 148-157), line by line:

    while retry:
        try:
            chin, chout, cherr = self._client.exec_command(cmd)
        except paramiko.SSHException as ex:
            if not retry:
                stderr = str(ex)
                raise RuntimeError(err_msg.format(**locals()))
            self.reconnect()
            retry -= 1

`i` counts `exec_command` attempts, `recon` counts reconnects, `chout`
is the last assigned channel triple.  Note the loop body does not touch
`retry` on the success path. -/
def executeLoop (env : ExecEnv) : Nat → Nat → Nat → Option RemoteResult →
    Nat → Option LoopExit
  | _, _, _, _, 0 => none
  | i, retry, recon, chout, fuel + 1 =>
    if retry = 0 then some (.exited recon chout)
    else if execRaisesAt env i then
      if retry = 0 then some (.raisedConn recon)
      else if reconnRaisesAt env recon then some (.raisedReconn recon)
      else executeLoop env (i + 1) (retry - 1) (recon + 1) chout fuel
    else executeLoop env (i + 1) retry recon (some env.result) fuel

/-- Outcome of a whole `execute` call (with fuel bounding the loop). -/
inductive ExecOutcome where
  /-- The triple `(rc, stdout, stderr)` was returned. -/
  | ok (recon rc : Nat) (stdout stderr : Str)
  /-- `RuntimeError(err_msg)` raised because `rc != 0 and can_fail`. -/
  | execFailed (recon rc : Nat) (stdout stderr : Str)
  /-- `RuntimeError(err_msg)` raised from the except branch. -/
  | connError (recon : Nat)
  /-- `RuntimeError` raised by `reconnect()` itself. -/
  | reconnError (recon : Nat)
  /-- After the loop, `chout` was referenced but never assigned
  (Python `UnboundLocalError`/`NameError`). -/
  | nameError (recon : Nat)
  /-- The loop was still running when the fuel ran out. -/
  | stillLooping
  deriving DecidableEq

/-- `RemoteShell.execute` (lines 133-170): `retry` is initialised by
`retry = project.SHELL_RECONNECT_RETRY or 1`; after the loop the streams
are read to completion, the exit status is retrieved, and
`if rc and can_fail` an execution error is raised, else the triple is
returned. -/
def executeRun (cfgRetry : Nat) (canFail : Bool) (env : ExecEnv)
    (fuel : Nat) : ExecOutcome :=
  match executeLoop env 0 (if cfgRetry = 0 then 1 else cfgRetry) 0 none fuel with
  | none => .stillLooping
  | some (.raisedConn n) => .connError n
  | some (.raisedReconn n) => .reconnError n
  | some (.exited n none) => .nameError n
  | some (.exited n (some ch)) =>
    if ch.rc ≠ 0 ∧ canFail = true then
      .execFailed n ch.rc (joinNl ch.outLines) (joinNl ch.errLines)
    else .ok n ch.rc (joinNl ch.outLines) (joinNl ch.errLines)

/-! ## Script execution (`RemoteShell.run_script`) -/

/-- `'function script_trap()\x7b exit $? ; \x7d'` — the first bootstrap
line of `run_script`. -/
def trapFnLine : Str := "function script_trap()\x7b exit $? ; \x7d".toList

/-- `'trap script_trap ERR'` — the second bootstrap line. -/
def trapErrLine : Str := "trap script_trap ERR".toList

/-- A spawned subprocess: its argument vector and the data fed on its
standard input by `communicate`. -/
structure ProcCall where
  argv : List Str
  stdinData : Str
  deriving DecidableEq

/-- The subprocess `run_script` spawns (lines 189-209): the two trap
bootstrap lines are prepended to the caller's script, the lines are
joined with newlines, and the body is fed on the stdin of
`ssh -o StrictHostKeyChecking=no -o UserKnownHostsFile=/dev/null
-p port -i key user@host 'bash -x'`. -/
def runScriptProc (username host port keypath : Str) (script : List Str) :
    ProcCall :=
  { argv := [("ssh".toList), ("-o".toList),
             ("StrictHostKeyChecking=no".toList),
             ("-o".toList), ("UserKnownHostsFile=/dev/null".toList),
             ("-p".toList), port, ("-i".toList), keypath,
             username ++ Char.ofNat 64 :: host,
             ("bash -x".toList)]
    stdinData := joinNl (trapFnLine :: trapErrLine :: script) }

/-- The description computed by `run_script` (lines 183-185):

    desc = description or (
        '\x7b\x7d...'.format(mask_string(script[0]), mask_list, repl_list)
    )

Note that in the source `mask_string` is applied to `script[0]` alone —
`mask_list` and `repl_list` are (extra, ignored) arguments of
`str.format`, not of `mask_string` — so the derived description is the
raw, unmasked first line.  A falsy `description` (absent or empty)
selects the derived one. -/
def runScriptDesc (script : List Str) (description : Option Str) : Str :=
  let derived := mask_string (script.headD []) [] [] ++ ("...".toList)
  match description with
  | some d => if d = [] then derived else d
  | none => derived

/-- `err_msg = '[\x7bself.host\x7d] Failed to run script:\n\x7bdesc\x7d\n\x7bstderr\x7d'`
after formatting. -/
def scriptErrMsg (host desc stderr : Str) : Str :=
  Char.ofNat 91 :: host ++ ("] Failed to run script:".toList) ++
    Char.ofNat 10 :: desc ++ Char.ofNat 10 :: stderr

/-- Result of the tail of `run_script`/local `execute`: either the triple
is returned or a `RuntimeError` carrying a message is raised. -/
inductive RunResult where
  | ok (r : Nat × Str × Str)
  | error (msg : Str)
  deriving DecidableEq

/-- The tail of `run_script` (lines 217-219):
`if proc.returncode and can_fail: raise RuntimeError(err_msg...)` else
return the triple. -/
def runScriptFinish (canFail : Bool) (rc : Nat) (stdout stderr desc host : Str) :
    RunResult :=
  if rc ≠ 0 ∧ canFail = true then .error (scriptErrMsg host desc stderr)
  else .ok (rc, stdout, stderr)

/-! ## Connection registry and client state
(`RemoteShell.__init__`, `_register`, `reconnect`, `close`)

`RemoteShell._connections` is a class-level dict shared by all
instances; it is modelled as an association list with dict semantics
(assignment replaces the entry in place).  Each handle records the host
it was created for and a unique id drawn from a fresh counter.
`registerEvents` records each run of the ssh-key provisioning script,
`closedIds` the ids of handles whose `close()` was called.  Transport
outcomes (`connect` raising, the provisioning script failing) are
boolean oracles passed per call. -/

structure Conn where
  id : Nat
  chost : String
  deriving DecidableEq

structure Sys where
  connections : List (String × Conn)
  nextId : Nat
  registerEvents : List String
  closedIds : List Nat
  deriving DecidableEq

structure Shell where
  host : String
  client : Conn
  deriving DecidableEq

def lookupConn : List (String × Conn) → String → Option Conn
  | [], _ => none
  | (h, c) :: rest, host => if h = host then some c else lookupConn rest host

/-- Dict assignment `self._connections[self.host] = clt`: replace the
entry in place, or append a new one. -/
def insertConn : List (String × Conn) → String → Conn → List (String × Conn)
  | [], host, c => [(host, c)]
  | (h, c0) :: rest, host, c =>
    if h = host then (host, c) :: rest else (h, c0) :: insertConn rest host c

inductive KErr where
  /-- `ValueError`: sshkey attribute not set. -/
  | valueError
  /-- The provisioning script failed (`RuntimeError` from `run_script`). -/
  | scriptError
  /-- `RuntimeError('Failed to (re)connect to host ...')`. -/
  | connectError
  deriving DecidableEq

/-- `RemoteShell._register` (lines 84-103): if the registry already holds
a handle for the host, do nothing; else fail when no sshkey is
configured, else run the idempotent ssh-key provisioning script
(recorded in `registerEvents`; `scriptOk` says whether it succeeded). -/
def register (sshkeySet scriptOk : Bool) (host : String) (s : Sys) :
    Sys × Option KErr :=
  if (lookupConn s.connections host).isSome then (s, none)
  else if sshkeySet = false then (s, some .valueError)
  else
    let s := { s with registerEvents := host :: s.registerEvents }
    if scriptOk then (s, none) else (s, some .scriptError)

/-- Result of an operation that either yields a (re)connected shell or
raises. -/
inductive ShellRes where
  | ok (sh : Shell)
  | error (e : KErr)
  deriving DecidableEq

/-- `RemoteShell.reconnect` (lines 105-118): run `_register`, then open a
fresh client; on `SSHException` from `connect` raise a connection
`RuntimeError` (no registry change); on success store the new handle in
the registry under the host, replacing any entry, and set it as the
instance's client. -/
def reconnect (sshkeySet scriptOk connectOk : Bool) (sh : Shell) (s : Sys) :
    Sys × ShellRes :=
  match register sshkeySet scriptOk sh.host s with
  | (s1, some e) => (s1, .error e)
  | (s1, none) =>
    if connectOk then
      let c : Conn := ⟨s1.nextId, sh.host⟩
      ({ s1 with connections := insertConn s1.connections sh.host c,
                 nextId := s1.nextId + 1 },
       .ok { sh with client := c })
    else (s1, .error .connectError)

/-- `RemoteShell.__init__` (lines 68-73): adopt the cached handle when
the registry holds one for the host, otherwise `reconnect()`.  The
placeholder client id `0` is never observed: it is overwritten by
`reconnect` on success, and on failure no shell is produced. -/
def mkShell (sshkeySet scriptOk connectOk : Bool) (host : String) (s : Sys) :
    Sys × ShellRes :=
  match lookupConn s.connections host with
  | some c => (s, .ok ⟨host, c⟩)
  | none => reconnect sshkeySet scriptOk connectOk ⟨host, ⟨0, host⟩⟩ s

/-- `RemoteShell.close` (lines 221-222): `self._client.close()` — the
held handle is closed; nothing else (in particular not the registry) is
touched. -/
def closeShell (sh : Shell) (s : Sys) : Sys :=
  { s with closedIds := sh.client.id :: s.closedIds }

/-- A machine: the shared registry state plus all constructed client
instances.  `execute`'s only state effects are its `reconnect()` calls
and `run_script` has none, so constructions, reconnects and closes
generate every reachable state. -/
structure Machine where
  sys : Sys
  shells : List Shell
  deriving DecidableEq

inductive Op where
  | construct (host : String) (sshkeySet scriptOk connectOk : Bool)
  | reconn (i : Nat) (sshkeySet scriptOk connectOk : Bool)
  | closeOp (i : Nat)
  deriving DecidableEq

def stepOp (m : Machine) : Op → Machine
  | .construct host k so co =>
    match mkShell k so co host m.sys with
    | (s, .ok sh) => ⟨s, m.shells ++ [sh]⟩
    | (s, .error _) => ⟨s, m.shells⟩
  | .reconn i k so co =>
    match m.shells.get? i with
    | none => m
    | some sh =>
      match reconnect k so co sh m.sys with
      | (s, .ok sh2) => ⟨s, m.shells.set i sh2⟩
      | (s, .error _) => ⟨s, m.shells⟩
  | .closeOp i =>
    match m.shells.get? i with
    | none => m
    | some sh => ⟨closeShell sh m.sys, m.shells⟩

def runOps (ops : List Op) (m : Machine) : Machine := ops.foldl stepOp m

def initMachine : Machine := ⟨⟨[], 1, [], []⟩, []⟩

end Kanzo

namespace Kanzo

/-! ## Lemmas about the `execute` loop -/

lemma get?_replicate_lt {a : Bool} : ∀ n i, i < n →
    (List.replicate n a).get? i = some a := by
  intro n
  induction n with
  | zero => intro i h; omega
  | succ n ih =>
    intro i h
    cases i with
    | zero => rfl
    | succ i => exact ih i (by omega)

/-- When no `exec_command` attempt ever raises, the loop never exits:
`retry` is only decremented in the except branch. -/
lemma executeLoop_no_raise (rp : List Bool) (res : RemoteResult) :
    ∀ fuel i retry recon chout, retry ≠ 0 →
      executeLoop ⟨[], rp, res⟩ i retry recon chout fuel = none := by
  intro fuel
  induction fuel with
  | zero => intro i retry recon chout _; rfl
  | succ fuel ih =>
    intro i retry recon chout hr
    have hexec : execRaisesAt ⟨[], rp, res⟩ i = false := rfl
    simp only [executeLoop, hexec, if_neg hr, Bool.false_eq_true, if_false]
    exact ih (i + 1) retry recon (some res) hr

/-- The `if not retry: raise RuntimeError(err_msg...)` branch inside the
loop is dead code: inside the loop body `retry` is non-zero. -/
lemma executeLoop_ne_raisedConn (env : ExecEnv) :
    ∀ fuel i retry recon chout n,
      executeLoop env i retry recon chout fuel ≠ some (.raisedConn n) := by
  intro fuel
  induction fuel with
  | zero => intro i retry recon chout n h; exact Option.noConfusion h
  | succ fuel ih =>
    intro i retry recon chout n h
    by_cases hr : retry = 0
    · simp only [executeLoop, if_pos hr] at h
      exact LoopExit.noConfusion (Option.some.inj h)
    · simp only [executeLoop, if_neg hr] at h
      by_cases he : execRaisesAt env i = true
      · simp only [he, if_pos, if_neg hr] at h
        by_cases hc : reconnRaisesAt env recon = true
        · simp only [hc, if_pos] at h
          exact LoopExit.noConfusion (Option.some.inj h)
        · simp only [hc, Bool.false_eq_true, if_false] at h
          exact ih _ _ _ _ _ h
      · simp only [he, Bool.false_eq_true, if_false] at h
        exact ih _ _ _ _ _ h

/-- When every attempt raises and every reconnect succeeds, the loop does
exactly `retry` reconnects and exits with whatever `chout` held. -/
lemma executeLoop_all_raise (res : RemoteResult) (n : Nat) :
    ∀ k i recon chout fuel, i + k ≤ n → k + 1 ≤ fuel →
      executeLoop ⟨List.replicate n true, [], res⟩ i k recon chout fuel =
        some (.exited (recon + k) chout) := by
  intro k
  induction k with
  | zero =>
    intro i recon chout fuel _ hf
    cases fuel with
    | zero => omega
    | succ fuel => rfl
  | succ k ih =>
    intro i recon chout fuel hn hf
    cases fuel with
    | zero => omega
    | succ fuel =>
      have he : execRaisesAt ⟨List.replicate n true, [], res⟩ i = true := by
        simp only [execRaisesAt, get?_replicate_lt n i (by omega)]
        rfl
      have hc : reconnRaisesAt ⟨List.replicate n true, [], res⟩ recon = false := rfl
      have hr : (k + 1 : Nat) ≠ 0 := by omega
      simp only [executeLoop, if_neg hr, he, if_pos, hc, Bool.false_eq_true,
        if_false, Nat.add_sub_cancel]
      rw [ih (i + 1) (recon + 1) chout fuel (by omega) (by omega)]
      have : recon + 1 + k = recon + (k + 1) := by omega
      rw [this]

/-- C1.  The claim says: when issuing the command over the channel
succeeds, `execute` terminates, reads the streams, retrieves the exit
status and returns the triple.  The code does not: `retry` is never
decremented on the success path, so `while retry:` re-issues the command
forever and the post-loop code is unreachable — for every fuel bound the
loop is still running.  This contradicts the method's own docstring
("Returns (return code, content of stdout, content of stderr)"), so the
claim is a code bug, not a spec error. -/
theorem execute_success_never_returns (cfgRetry : Nat) (canFail : Bool)
    (rp : List Bool) (res : RemoteResult) (fuel : Nat) :
    executeRun cfgRetry canFail ⟨[], rp, res⟩ fuel = .stillLooping := by
  have h0 : (if cfgRetry = 0 then 1 else cfgRetry) ≠ 0 := by
    by_cases h : cfgRetry = 0 <;> simp [h]
  unfold executeRun
  rw [executeLoop_no_raise rp res fuel 0 _ 0 none h0]

/-- C2.  The claim says: on transport errors on every attempt, `execute`
reconnects, retries up to the bounded count, and once retries are
exhausted raises a connection error carrying the last transport error's
message.  In the code (a) the raise is dead: inside the loop body
`retry` is always truthy, so `if not retry: raise RuntimeError(err_msg)`
can never fire; (b) after `retry` reconnects the loop exits with `chout`
never assigned, and the post-loop read of `chout` fails with Python's
unbound-local error rather than the documented connection error. -/
theorem execute_exhaustion_is_unbound_local :
    (∀ (env : ExecEnv) (fuel i retry recon n : Nat)
       (chout : Option RemoteResult),
       executeLoop env i retry recon chout fuel ≠ some (.raisedConn n))
  ∧ (∀ (r fuel : Nat) (canFail : Bool) (res : RemoteResult),
       r ≠ 0 → r + 1 ≤ fuel →
       executeRun r canFail ⟨List.replicate r true, [], res⟩ fuel =
         .nameError r) := by
  constructor
  · intro env fuel i retry recon n chout
    exact executeLoop_ne_raisedConn env fuel i retry recon chout n
  · intro r fuel canFail res hr hf
    unfold executeRun
    simp only [if_neg hr]
    rw [executeLoop_all_raise res r r 0 0 none fuel (by omega) hf]
    simp

/-- Witness for C2 at the default configuration (`SHELL_RECONNECT_RETRY
or 1`, i.e. one loop pass): one reconnect, then the unbound-local
failure. -/
theorem execute_exhaustion_is_unbound_local_witness :
    executeRun 1 true ⟨[true], [], ⟨[], [], 0⟩⟩ 5 = .nameError 1 :=
  execute_exhaustion_is_unbound_local.2 1 5 true ⟨[], [], 0⟩
    (by decide) (by decide)

/-- C7.  When `can_fail` is false, a non-zero remote exit is returned as
data: whenever `execute`'s loop hands the post-loop code a channel
triple, the triple `(rc, stdout, stderr)` is returned and no execution
error is raised; likewise `run_script` returns
`(proc.returncode, stdout, stderr)` unconditionally when `can_fail` is
false. -/
theorem can_fail_false_returns_data :
    (∀ (cfgRetry fuel n : Nat) (env : ExecEnv) (ch : RemoteResult),
       executeLoop env 0 (if cfgRetry = 0 then 1 else cfgRetry) 0 none fuel =
         some (.exited n (some ch)) →
       executeRun cfgRetry false env fuel =
         .ok n ch.rc (joinNl ch.outLines) (joinNl ch.errLines))
  ∧ (∀ (rc : Nat) (stdout stderr desc host : Str), rc ≠ 0 →
       runScriptFinish false rc stdout stderr desc host =
         .ok (rc, stdout, stderr)) := by
  constructor
  · intro cfgRetry fuel n env ch h
    unfold executeRun
    rw [h]
    simp
  · intro rc stdout stderr desc host _
    simp [runScriptFinish]

/-- Witness for C7: a concrete run where the loop exits holding channels
with exit status 7; with `can_fail = false` the triple is returned, and
a concrete `run_script` tail with non-zero status returns its triple. -/
theorem can_fail_false_returns_data_witness :
    executeRun 1 false ⟨[false, true], [], ⟨[("a".toList)], [], 7⟩⟩ 3 =
      .ok 1 7 ("a".toList) [] ∧
    runScriptFinish false 2 [] [] [] [] = .ok (2, [], []) :=
  ⟨can_fail_false_returns_data.1 1 3 1 ⟨[false, true], [], ⟨[("a".toList)], [], 7⟩⟩
      ⟨[("a".toList)], [], 7⟩ (by decide),
   can_fail_false_returns_data.2 2 [] [] [] [] (by decide)⟩

end Kanzo

namespace Kanzo

/-! ## Lemmas about the connection registry -/

lemma lookupConn_mem : ∀ (l : List (String × Conn)) (a : String) (c : Conn),
    lookupConn l a = some c → (a, c) ∈ l := by
  intro l
  induction l with
  | nil => intro a c h; exact Option.noConfusion h
  | cons p rest ih =>
    intro a c h
    rcases p with ⟨h0, c0⟩
    by_cases he : h0 = a
    · subst he
      simp only [lookupConn, if_pos rfl] at h
      exact (Option.some.inj h) ▸ List.mem_cons_self _ _
    · simp only [lookupConn, if_neg he] at h
      exact List.mem_cons_of_mem _ (ih a c h)

lemma lookupConn_insert_self : ∀ (l : List (String × Conn)) (a : String) (c : Conn),
    lookupConn (insertConn l a c) a = some c := by
  intro l
  induction l with
  | nil => intro a c; simp [insertConn, lookupConn]
  | cons p rest ih =>
    intro a c
    rcases p with ⟨h0, c0⟩
    by_cases he : h0 = a
    · simp [insertConn, if_pos he, lookupConn]
    · simp only [insertConn, if_neg he, lookupConn, if_neg he]
      exact ih a c

lemma mem_insertConn : ∀ (l : List (String × Conn)) (a : String) (c : Conn)
    (p : String × Conn), p ∈ insertConn l a c → p = (a, c) ∨ p ∈ l := by
  intro l
  induction l with
  | nil => intro a c p h; simp [insertConn] at h; exact Or.inl h
  | cons q rest ih =>
    intro a c p h
    rcases q with ⟨h0, c0⟩
    by_cases he : h0 = a
    · simp only [insertConn, if_pos he, List.mem_cons] at h
      rcases h with h | h
      · exact Or.inl h
      · exact Or.inr (List.mem_cons_of_mem _ h)
    · simp only [insertConn, if_neg he, List.mem_cons] at h
      rcases h with h | h
      · exact Or.inr (h ▸ List.mem_cons_self _ _)
      · rcases ih a c p h with h2 | h2
        · exact Or.inl h2
        · exact Or.inr (List.mem_cons_of_mem _ h2)

lemma mem_map_fst_insertConn : ∀ (l : List (String × Conn)) (a : String)
    (c : Conn) (x : String), x ∈ (insertConn l a c).map Prod.fst →
      x = a ∨ x ∈ l.map Prod.fst := by
  intro l a c x h
  rcases List.mem_map.1 h with ⟨p, hp, hx⟩
  rcases mem_insertConn l a c p hp with h2 | h2
  · subst h2; exact Or.inl hx.symm
  · exact Or.inr (hx ▸ List.mem_map_of_mem Prod.fst h2)

lemma nodup_map_fst_insertConn : ∀ (l : List (String × Conn)) (a : String)
    (c : Conn), (l.map Prod.fst).Nodup → ((insertConn l a c).map Prod.fst).Nodup := by
  intro l
  induction l with
  | nil => intro a c _; simp [insertConn]
  | cons q rest ih =>
    intro a c hnd
    rcases q with ⟨h0, c0⟩
    simp only [List.map_cons, List.nodup_cons] at hnd
    by_cases he : h0 = a
    · subst he
      simpa [insertConn] using hnd
    · simp only [insertConn, if_neg he, List.map_cons, List.nodup_cons]
      refine ⟨fun hmem => ?_, ih a c hnd.2⟩
      rcases mem_map_fst_insertConn rest a c h0 hmem with h2 | h2
      · exact he h2
      · exact hnd.1 h2

lemma register_fst (k so : Bool) (a : String) (s : Sys) :
    (register k so a s).1.connections = s.connections ∧
    (register k so a s).1.nextId = s.nextId := by
  unfold register
  split_ifs <;> exact ⟨rfl, rfl⟩

/-- Characterisation of a successful `reconnect`: the returned shell is
for the same host, holds a handle created for that host, and the
registry now maps the host to exactly that handle. -/
lemma reconnect_ok (k so co : Bool) (sh : Shell) (s : Sys) (s1 : Sys)
    (sh2 : Shell) (h : reconnect k so co sh s = (s1, .ok sh2)) :
    sh2.host = sh.host ∧ sh2.client.chost = sh.host ∧
    lookupConn s1.connections sh.host = some sh2.client ∧
    s1.connections = insertConn (register k so sh.host s).1.connections
      sh.host sh2.client := by
  unfold reconnect at h
  rcases hreg : register k so sh.host s with ⟨sr, oe⟩
  rw [hreg] at h
  cases oe with
  | some e => exact Prod.noConfusion h (fun _ he => ShellRes.noConfusion he)
  | none =>
    by_cases hco : co = true
    · subst hco
      simp only [if_pos] at h
      rcases Prod.mk.injEq .. ▸ h with ⟨hs1, hsh⟩
      have hsh2 : sh2 = { sh with client := ⟨sr.nextId, sh.host⟩ } :=
        (ShellRes.ok.inj hsh).symm
      subst hsh2
      refine ⟨rfl, rfl, ?_, ?_⟩
      · rw [← hs1]
        exact lookupConn_insert_self sr.connections sh.host _
      · rw [← hs1]
    · simp only [hco, Bool.false_eq_true, if_false] at h
      exact Prod.noConfusion h (fun _ he => ShellRes.noConfusion he)

/-- On failure `reconnect` leaves the registry mapping untouched. -/
lemma reconnect_error (k so co : Bool) (sh : Shell) (s : Sys) (s1 : Sys)
    (e : KErr) (h : reconnect k so co sh s = (s1, .error e)) :
    s1.connections = s.connections := by
  unfold reconnect at h
  rcases hreg : register k so sh.host s with ⟨sr, oe⟩
  rw [hreg] at h
  have hsr : sr.connections = s.connections := by
    have := (register_fst k so sh.host s).1
    rw [hreg] at this
    exact this
  cases oe with
  | some e2 =>
    rcases Prod.mk.injEq .. ▸ h with ⟨hs1, _⟩
    rw [← hs1]; exact hsr
  | none =>
    by_cases hco : co = true
    · subst hco
      simp only [if_pos] at h
      exact Prod.noConfusion h (fun _ he => ShellRes.noConfusion he)
    · simp only [hco, Bool.false_eq_true, if_false] at h
      rcases Prod.mk.injEq .. ▸ h with ⟨hs1, _⟩
      rw [← hs1]; exact hsr

lemma mkShell_cached (k so co : Bool) (a : String) (s : Sys) (c : Conn)
    (h : lookupConn s.connections a = some c) :
    mkShell k so co a s = (s, .ok ⟨a, c⟩) := by
  unfold mkShell
  rw [h]

/-- The registry/client invariant: the registry (a dict) holds at most
one entry per host; every cached handle was created for the host it is
cached under; every client instance's held handle was created for the
host the instance was constructed with. -/
def MachineInv (m : Machine) : Prop :=
  (m.sys.connections.map Prod.fst).Nodup
  ∧ (∀ p ∈ m.sys.connections, p.2.chost = p.1)
  ∧ (∀ sh ∈ m.shells, sh.client.chost = sh.host)

lemma machineInv_reconnect (k so co : Bool) (sh : Shell) (s : Sys)
    (h1 : (s.connections.map Prod.fst).Nodup)
    (h2 : ∀ p ∈ s.connections, p.2.chost = p.1) :
    (((reconnect k so co sh s).1.connections.map Prod.fst).Nodup
     ∧ (∀ p ∈ (reconnect k so co sh s).1.connections, p.2.chost = p.1)
     ∧ (∀ sh2, (reconnect k so co sh s).2 = .ok sh2 →
         sh2.host = sh.host ∧ sh2.client.chost = sh.host)) := by
  rcases hr : reconnect k so co sh s with ⟨s1, res⟩
  have hregc : (register k so sh.host s).1.connections = s.connections :=
    (register_fst k so sh.host s).1
  cases res with
  | error e =>
    have hc := reconnect_error k so co sh s s1 e hr
    simp only [hc]
    exact ⟨h1, h2, fun sh2 h => ShellRes.noConfusion h⟩
  | ok sh2 =>
    rcases reconnect_ok k so co sh s s1 sh2 hr with ⟨hh, hch, _, hconn⟩
    simp only [hconn, hregc]
    refine ⟨nodup_map_fst_insertConn _ _ _ h1, ?_, ?_⟩
    · intro p hp
      rcases mem_insertConn _ _ _ p hp with h | h
      · subst h; exact hch
      · exact h2 p h
    · intro sh3 h3
      have he : sh2 = sh3 := ShellRes.ok.inj h3
      subst he
      exact ⟨hh, hch⟩

lemma machineInv_mkShell (k so co : Bool) (a : String) (s : Sys)
    (h1 : (s.connections.map Prod.fst).Nodup)
    (h2 : ∀ p ∈ s.connections, p.2.chost = p.1) :
    (((mkShell k so co a s).1.connections.map Prod.fst).Nodup
     ∧ (∀ p ∈ (mkShell k so co a s).1.connections, p.2.chost = p.1)
     ∧ (∀ sh2, (mkShell k so co a s).2 = .ok sh2 →
         sh2.host = a ∧ sh2.client.chost = a)) := by
  unfold mkShell
  rcases hl : lookupConn s.connections a with _ | c
  · exact machineInv_reconnect k so co ⟨a, ⟨0, a⟩⟩ s h1 h2
  · refine ⟨h1, h2, ?_⟩
    intro sh2 hok
    have hok2 : ShellRes.ok (⟨a, c⟩ : Shell) = ShellRes.ok sh2 := hok
    have he : (⟨a, c⟩ : Shell) = sh2 := ShellRes.ok.inj hok2
    subst he
    exact ⟨rfl, h2 (a, c) (lookupConn_mem _ _ _ hl)⟩

lemma machineInv_step (m : Machine) (op : Op) (h : MachineInv m) :
    MachineInv (stepOp m op) := by
  rcases h with ⟨h1, h2, h3⟩
  cases op with
  | construct a k so co =>
    show MachineInv (match mkShell k so co a m.sys with
      | (s, ShellRes.ok sh) => Machine.mk s (m.shells ++ [sh])
      | (s, ShellRes.error _) => Machine.mk s m.shells)
    have hrec := machineInv_mkShell k so co a m.sys h1 h2
    rcases hm : mkShell k so co a m.sys with ⟨s, res⟩
    rw [hm] at hrec
    cases res with
    | error e => exact ⟨hrec.1, hrec.2.1, h3⟩
    | ok sh =>
      refine ⟨hrec.1, hrec.2.1, ?_⟩
      intro x hx
      rcases List.mem_append.1 hx with hx | hx
      · exact h3 x hx
      · have hxe : x = sh := List.mem_singleton.1 hx
        subst hxe
        rcases hrec.2.2 x rfl with ⟨hh, hc⟩
        rw [hh, hc]
  | reconn i k so co =>
    show MachineInv (match m.shells.get? i with
      | none => m
      | some sh =>
        match reconnect k so co sh m.sys with
        | (s, ShellRes.ok sh2) => Machine.mk s (m.shells.set i sh2)
        | (s, ShellRes.error _) => Machine.mk s m.shells)
    rcases hg : m.shells.get? i with _ | sh
    · exact ⟨h1, h2, h3⟩
    · show MachineInv (match reconnect k so co sh m.sys with
        | (s, ShellRes.ok sh2) => Machine.mk s (m.shells.set i sh2)
        | (s, ShellRes.error _) => Machine.mk s m.shells)
      have hrec := machineInv_reconnect k so co sh m.sys h1 h2
      rcases hr : reconnect k so co sh m.sys with ⟨s, res⟩
      rw [hr] at hrec
      cases res with
      | error e => exact ⟨hrec.1, hrec.2.1, h3⟩
      | ok sh2 =>
        refine ⟨hrec.1, hrec.2.1, ?_⟩
        intro x hx
        rcases List.mem_or_eq_of_mem_set hx with hx | hx
        · exact h3 x hx
        · subst hx
          rcases hrec.2.2 x rfl with ⟨hh, hc⟩
          rw [hh, hc]
  | closeOp i =>
    show MachineInv (match m.shells.get? i with
      | none => m
      | some sh => Machine.mk (closeShell sh m.sys) m.shells)
    rcases hg : m.shells.get? i with _ | sh
    · exact ⟨h1, h2, h3⟩
    · exact ⟨h1, h2, h3⟩

lemma machineInv_runOps (ops : List Op) (m : Machine) (h : MachineInv m) :
    MachineInv (runOps ops m) := by
  induction ops generalizing m with
  | nil => exact h
  | cons op rest ih => exact ih (stepOp m op) (machineInv_step m op h)

/-- C9.  In every reachable machine state the registry maps each host to
at most one handle (its key list has no duplicates), every cached handle
was created for the host it is cached under, and every client's held
handle was created for (and, when stored, stored under) the host the
client was constructed with — never a handle for a different host. -/
theorem registry_at_most_one_handle_per_host (ops : List Op) :
    ((runOps ops initMachine).sys.connections.map Prod.fst).Nodup
    ∧ (∀ p ∈ (runOps ops initMachine).sys.connections, p.2.chost = p.1)
    ∧ (∀ sh ∈ (runOps ops initMachine).shells, sh.client.chost = sh.host) :=
  machineInv_runOps ops initMachine
    ⟨List.nodup_nil,
     fun p hp => absurd hp (List.not_mem_nil p),
     fun sh hs => absurd hs (List.not_mem_nil sh)⟩

/-- Witness for C9 at a concrete trace: two hosts constructed and the
first reconnected; the client for "h1" holds a handle created for
"h1". -/
theorem registry_at_most_one_handle_per_host_witness :
    (Shell.mk ("h1") ⟨3, "h1"⟩).client.chost = (Shell.mk ("h1") ⟨3, "h1"⟩).host :=
  (registry_at_most_one_handle_per_host
    [.construct ("h1") true true true, .construct ("h2") true true true,
     .reconn 0 true true true]).2.2 ⟨"h1", ⟨3, "h1"⟩⟩ (by decide)

/-- C3 as written is false on the code: `reconnect()` always calls
`_register`, but `_register` returns immediately — running no
registration script — whenever the registry already holds a handle for
the host.  Here the registry holds a handle for `"h1"`, `reconnect`
succeeds, and the record of provisioning-script runs stays empty. -/
theorem reconnect_skips_registration_counterexample :
    (lookupConn [("h1", ⟨5, "h1"⟩)] "h1").isSome = true
    ∧ (reconnect true true true ⟨"h1", ⟨5, "h1"⟩⟩
        ⟨[("h1", ⟨5, "h1"⟩)], 6, [], []⟩).1.registerEvents = [] := by
  constructor
  · decide
  · decide

/-- C3 (amended).  Every call to `reconnect()` invokes the
key-registration step, but the registration script runs only when the
registry holds no handle for the host (when one is cached, registration
is skipped); `reconnect` then opens a fresh authenticated channel and
stores it in the registry, replacing the existing entry for this
host. -/
theorem reconnect_registration_conditional (k co : Bool) (sh : Shell) (s : Sys) :
    ((lookupConn s.connections sh.host).isSome →
        ∀ so, (reconnect k so co sh s).1.registerEvents = s.registerEvents)
    ∧ ((lookupConn s.connections sh.host = none) → k = true →
        ∀ so, (reconnect k so co sh s).1.registerEvents =
          sh.host :: s.registerEvents)
    ∧ (co = true → (lookupConn s.connections sh.host).isSome →
        ∀ so, reconnect k so co sh s =
          (Sys.mk (insertConn s.connections sh.host (Conn.mk s.nextId sh.host))
             (s.nextId + 1) s.registerEvents s.closedIds,
           .ok (Shell.mk sh.host (Conn.mk s.nextId sh.host)))) := by
  refine ⟨?_, ?_, ?_⟩
  · intro hsome so
    unfold reconnect register
    simp only [if_pos hsome]
    by_cases hco : co = true <;> simp [hco]
  · intro hnone hk so
    unfold reconnect register
    simp only [hnone, Option.isSome_none, Bool.false_eq_true, if_false,
      hk, if_neg]
    by_cases hso : so = true <;> by_cases hco : co = true <;> simp [hso, hco]
  · intro hco hsome so
    subst hco
    unfold reconnect register
    simp only [if_pos hsome, if_pos]

/-- Witness for C3's amended theorem: with a cached handle for "h1",
reconnect leaves the provisioning record unchanged and replaces the
registry entry with the freshly-created handle. -/
theorem reconnect_registration_conditional_witness :
    reconnect true true true ⟨"h1", ⟨5, "h1"⟩⟩ ⟨[("h1", ⟨5, "h1"⟩)], 6, [], []⟩ =
      (⟨[("h1", ⟨6, "h1"⟩)], 7, [], []⟩, .ok ⟨"h1", ⟨6, "h1"⟩⟩) :=
  (reconnect_registration_conditional true true ⟨"h1", ⟨5, "h1"⟩⟩
      ⟨[("h1", ⟨5, "h1"⟩)], 6, [], []⟩).2.2 rfl (by decide) true

/-- C6.  Constructing a `RemoteShell` for a host whose handle is already
cached adopts the cached handle and changes nothing (no registration, no
provisioning, no new connection); and after any successful construction,
a second construction for the same host returns a client holding the
same underlying channel, with the shared state unchanged. -/
theorem construct_reuses_connection (k so co k2 so2 co2 : Bool)
    (a : String) (s : Sys) :
    (∀ c, lookupConn s.connections a = some c →
        mkShell k so co a s = (s, .ok ⟨a, c⟩))
    ∧ (∀ s1 sh1, mkShell k so co a s = (s1, .ok sh1) →
        mkShell k2 so2 co2 a s1 = (s1, .ok ⟨a, sh1.client⟩)) := by
  constructor
  · intro c h
    exact mkShell_cached k so co a s c h
  · intro s1 sh1 h
    unfold mkShell at h
    rcases hl : lookupConn s.connections a with _ | c
    · rw [hl] at h
      rcases reconnect_ok k so co ⟨a, ⟨0, a⟩⟩ s s1 sh1 h with ⟨hh, _, hlook, _⟩
      have hlook2 : lookupConn s1.connections a = some sh1.client := hlook
      rw [mkShell_cached k2 so2 co2 a s1 sh1.client hlook2]
    · rw [hl] at h
      have hs : s = s1 := congrArg Prod.fst h
      have hres : ShellRes.ok (⟨a, c⟩ : Shell) = ShellRes.ok sh1 :=
        congrArg Prod.snd h
      have hsh : (⟨a, c⟩ : Shell) = sh1 := ShellRes.ok.inj hres
      subst hs
      rw [mkShell_cached k2 so2 co2 a s c hl, ← hsh]

/-- Witness for C6: a second construction for "h1" adopts the cached
handle created by the first. -/
theorem construct_reuses_connection_witness :
    mkShell true true true ("h1") ⟨[("h1", ⟨5, "h1"⟩)], 6, [], []⟩ =
      (⟨[("h1", ⟨5, "h1"⟩)], 6, [], []⟩, .ok ⟨"h1", ⟨5, "h1"⟩⟩) :=
  (construct_reuses_connection true true true true true true ("h1")
      ⟨[("h1", ⟨5, "h1"⟩)], 6, [], []⟩).1 ⟨5, "h1"⟩ (by decide)

/-- C10.  `close()` releases only the client's own channel: the registry
and the provisioning record are untouched, the handle's id is recorded
as closed, and — since the now-closed handle remains cached — a
`RemoteShell` constructed afterwards for the same host adopts the closed
handle and performs neither registration nor reconnect (the shared
state stays exactly as `close` left it). -/
theorem close_leaves_registry (sh : Shell) (s : Sys) (k so co : Bool) :
    (closeShell sh s).connections = s.connections
    ∧ (closeShell sh s).registerEvents = s.registerEvents
    ∧ sh.client.id ∈ (closeShell sh s).closedIds
    ∧ (lookupConn s.connections sh.host = some sh.client →
        mkShell k so co sh.host (closeShell sh s) =
          (closeShell sh s, .ok ⟨sh.host, sh.client⟩)) := by
  refine ⟨rfl, rfl, List.mem_cons_self _ _, ?_⟩
  intro h
  exact mkShell_cached k so co sh.host (closeShell sh s) sh.client h

/-- Witness for C10: closing the client for "h1" then constructing a new
client for "h1" adopts the (closed) cached handle. -/
theorem close_leaves_registry_witness :
    mkShell true true true ("h1")
        (closeShell ⟨"h1", ⟨5, "h1"⟩⟩ ⟨[("h1", ⟨5, "h1"⟩)], 6, [], []⟩) =
      (closeShell ⟨"h1", ⟨5, "h1"⟩⟩ ⟨[("h1", ⟨5, "h1"⟩)], 6, [], []⟩,
       .ok ⟨"h1", ⟨5, "h1"⟩⟩) :=
  (close_leaves_registry ⟨"h1", ⟨5, "h1"⟩⟩ ⟨[("h1", ⟨5, "h1"⟩)], 6, [], []⟩
      true true true).2.2.2 (by decide)

/-! ## Script body construction (`run_script`) -/

lemma splitNl_append (r : Str) : ∀ l : Str, Char.ofNat 10 ∉ l →
    splitNl (l ++ Char.ofNat 10 :: r) = l :: splitNl r := by
  intro l
  induction l with
  | nil => intro _; simp [splitNl]
  | cons c l ih =>
    intro h
    have hc : ¬ c = Char.ofNat 10 := fun he => h (he ▸ List.mem_cons_self c l)
    have h2 : Char.ofNat 10 ∉ l := fun he => h (List.mem_cons_of_mem c he)
    show splitNl (c :: (l ++ Char.ofNat 10 :: r)) = (c :: l) :: splitNl r
    simp only [splitNl, if_neg hc]
    rw [ih h2]

lemma splitNl_no_nl : ∀ l : Str, Char.ofNat 10 ∉ l → splitNl l = [l] := by
  intro l
  induction l with
  | nil => intro _; rfl
  | cons c l ih =>
    intro h
    have hc : ¬ c = Char.ofNat 10 := fun he => h (he ▸ List.mem_cons_self c l)
    have h2 : Char.ofNat 10 ∉ l := fun he => h (List.mem_cons_of_mem c he)
    simp only [splitNl, if_neg hc, ih h2]

lemma splitNl_joinNl : ∀ ls : List Str, ls ≠ [] →
    (∀ l ∈ ls, Char.ofNat 10 ∉ l) → splitNl (joinNl ls) = ls := by
  intro ls
  induction ls with
  | nil => intro h _; exact absurd rfl h
  | cons l rest ih =>
    intro _ hnl
    cases rest with
    | nil => exact splitNl_no_nl l (hnl l (List.mem_cons_self _ _))
    | cons l2 rest2 =>
      show splitNl (l ++ Char.ofNat 10 :: joinNl (l2 :: rest2)) = _
      rw [splitNl_append _ l (hnl l (List.mem_cons_self _ _))]
      rw [ih (by simp) (fun x hx => hnl x (List.mem_cons_of_mem l hx))]

/-- C8.  `run_script` prepends exactly the two trap bootstrap lines (the
trap function definition and the `trap script_trap ERR` line) to the
caller's lines, joins everything with newlines into one body, and feeds
that body on the stdin of a freshly spawned `ssh` subprocess whose
argument vector disables host-key checking
(`-o StrictHostKeyChecking=no -o UserKnownHostsFile=/dev/null`) and runs
the body through the command-echoing invocation `bash -x`.  When no
caller line contains a newline, splitting the body at newlines recovers
exactly the two bootstrap lines followed by the caller's script. -/
theorem run_script_builds_trap_script (u a p kp : Str) (script : List Str)
    (hnl : ∀ l ∈ script, Char.ofNat 10 ∉ l) :
    (runScriptProc u a p kp script).stdinData =
        joinNl (trapFnLine :: trapErrLine :: script)
    ∧ splitNl (runScriptProc u a p kp script).stdinData =
        trapFnLine :: trapErrLine :: script
    ∧ (runScriptProc u a p kp script).argv =
        [("ssh".toList), ("-o".toList), ("StrictHostKeyChecking=no".toList),
         ("-o".toList), ("UserKnownHostsFile=/dev/null".toList),
         ("-p".toList), p, ("-i".toList), kp, u ++ Char.ofNat 64 :: a,
         ("bash -x".toList)] := by
  refine ⟨rfl, ?_, rfl⟩
  apply splitNl_joinNl
  · simp
  · intro l hl
    rcases List.mem_cons.1 hl with h | hl2
    · subst h; decide
    · rcases List.mem_cons.1 hl2 with h | hl3
      · subst h; decide
      · exact hnl l hl3

/-- Witness for C8 with a one-line script. -/
theorem run_script_builds_trap_script_witness :
    splitNl (runScriptProc ("root".toList) ("h1".toList) ("22".toList)
        ("key".toList) [("echo hi".toList)]).stdinData =
      trapFnLine :: trapErrLine :: [("echo hi".toList)] :=
  (run_script_builds_trap_script ("root".toList) ("h1".toList) ("22".toList)
      ("key".toList) [("echo hi".toList)] (by decide)).2.1

/-- C4 is violated by `run_script`: when `description` is absent the
derived description is the raw, unmasked first script line, because the
source passes `mask_list` and `repl_list` to `str.format` instead of to
`mask_string` (`desc = '...'.format(mask_string(script[0]), mask_list,
repl_list)`).  For `run_script(["echo secret123"],
mask_list=["secret123"])` with a non-zero exit, the raised error's
description field contains the mask-set word `secret123` — even though
`mask_string` with that mask list would have removed it. -/
theorem run_script_error_leaks_secret :
    runScriptDesc [("echo secret123".toList)] none = ("echo secret123...".toList)
    ∧ ("secret123".toList) <:+: runScriptDesc [("echo secret123".toList)] none
    ∧ ("secret123".toList) <:+:
        scriptErrMsg ("h1".toList) (runScriptDesc [("echo secret123".toList)] none) []
    ∧ runScriptFinish true 1 [] [] (runScriptDesc [("echo secret123".toList)] none)
        ("h1".toList) =
        .error (scriptErrMsg ("h1".toList)
          (runScriptDesc [("echo secret123".toList)] none) [])
    ∧ ¬ ("secret123".toList) <:+:
        mask_string ("echo secret123".toList) [("secret123".toList)] pyReplRules := by
  refine ⟨by decide, by decide, by decide, by decide, by decide⟩

/-! ## Masking removes mask words (`mask_string`) -/

lemma mem_STR_MASK (c : Char) (hc : c ∈ STR_MASK) : c = star :=
  List.eq_of_mem_replicate hc

lemma STR_MASK_ne_nil : STR_MASK ≠ [] := by decide

lemma isPre_iff : ∀ u v : Str, isPre u v = true ↔ u <+: v := by
  intro u
  induction u with
  | nil => intro v; simp [isPre]
  | cons a as ih =>
    intro v
    cases v with
    | nil => simp [isPre]
    | cons b bs =>
      simp [isPre, List.cons_prefix_cons, ih bs]

/-- A non-empty star-free string is never a prefix of an all-star block
followed by anything. -/
lemma star_block_repels (m : Str) (hm : ∀ c ∈ m, c = star) (hmne : m ≠ [])
    (u : Str) (hu : u ≠ []) (hstar : star ∉ u) (t : Str) : ¬ u <+: m ++ t := by
  intro hpre
  cases m with
  | nil => exact hmne rfl
  | cons c0 m' =>
    cases u with
    | nil => exact hu rfl
    | cons a u' =>
      rcases List.cons_prefix_cons.1 hpre with ⟨hac, _⟩
      have ha : a = star := hac.trans (hm c0 (List.mem_cons_self _ _))
      subst ha
      exact hstar (List.mem_cons_self _ _)

/-- A non-empty star-free infix of `m ++ t` with `m` all-star lies in `t`. -/
lemma infix_star_block (l t : Str) (hl : l ≠ []) (hstar : star ∉ l) :
    ∀ m : Str, (∀ c ∈ m, c = star) → l <:+: m ++ t → l <:+: t := by
  intro m
  induction m with
  | nil => intro _ h; exact h
  | cons c0 m' ih =>
    intro hm h
    rw [List.cons_append] at h
    rcases List.infix_cons_iff.1 h with h | h
    · exfalso
      cases l with
      | nil => exact hl rfl
      | cons a l' =>
        rcases List.cons_prefix_cons.1 h with ⟨hac, _⟩
        have ha : a = star := hac.trans (hm c0 (List.mem_cons_self _ _))
        subst ha
        exact hstar (List.mem_cons_self _ _)
    · exact ih (fun c hc => hm c (List.mem_cons_of_mem _ hc)) h

/-- Star-free non-empty prefixes of the replacement output are prefixes
of the input string. -/
lemma starfree_prefix_replaceCoreF (w : Str) :
    ∀ fuel s u, s.length ≤ fuel → u ≠ [] → star ∉ u →
      u <+: replaceCoreF w STR_MASK fuel s → u <+: s := by
  intro fuel
  induction fuel with
  | zero =>
    intro s u hlen _ _ hpre
    have hs : s = [] := List.eq_nil_of_length_eq_zero (Nat.le_zero.1 hlen)
    subst hs
    exact hpre
  | succ fuel ih =>
    intro s u hlen hu hstar hpre
    cases s with
    | nil => exact hpre
    | cons c rest =>
      have hlen' : rest.length ≤ fuel := by
        simp only [List.length_cons] at hlen; omega
      by_cases hp : isPre w (c :: rest) = true
      · simp only [replaceCoreF, if_pos hp] at hpre
        exact absurd hpre (star_block_repels STR_MASK mem_STR_MASK
          STR_MASK_ne_nil u hu hstar _)
      · simp only [replaceCoreF, if_neg hp] at hpre
        cases u with
        | nil => exact absurd rfl hu
        | cons a u' =>
          rcases List.cons_prefix_cons.1 hpre with ⟨hac, hpre'⟩
          subst hac
          cases u' with
          | nil => exact List.cons_prefix_cons.2 ⟨rfl, List.nil_prefix⟩
          | cons b u'' =>
            have h2 := ih rest (b :: u'') hlen' (by simp)
              (fun hc => hstar (List.mem_cons_of_mem _ hc)) hpre'
            exact List.cons_prefix_cons.2 ⟨rfl, h2⟩

/-- After replacement by the all-star mask, a non-empty star-free pattern
does not occur in the output. -/
lemma replaceCoreF_removes (w : Str) (hw : w ≠ []) (hstar : star ∉ w) :
    ∀ fuel s, s.length ≤ fuel → ¬ w <:+: replaceCoreF w STR_MASK fuel s := by
  intro fuel
  induction fuel with
  | zero =>
    intro s hlen hinf
    have hs : s = [] := List.eq_nil_of_length_eq_zero (Nat.le_zero.1 hlen)
    subst hs
    exact hw (List.eq_nil_of_infix_nil hinf)
  | succ fuel ih =>
    intro s hlen hinf
    cases s with
    | nil => exact hw (List.eq_nil_of_infix_nil hinf)
    | cons c rest =>
      have hlen' : rest.length ≤ fuel := by
        simp only [List.length_cons] at hlen; omega
      by_cases hp : isPre w (c :: rest) = true
      · simp only [replaceCoreF, if_pos hp] at hinf
        have h2 := infix_star_block w _ hw hstar STR_MASK mem_STR_MASK hinf
        exact ih _ (by rw [List.length_drop]; omega) h2
      · simp only [replaceCoreF, if_neg hp] at hinf
        rcases List.infix_cons_iff.1 hinf with h | h
        · cases w with
          | nil => exact hw rfl
          | cons a w' =>
            rcases List.cons_prefix_cons.1 h with ⟨hac, hpre'⟩
            subst hac
            cases w' with
            | nil => exact hp (by simp [isPre])
            | cons b w'' =>
              have h2 := starfree_prefix_replaceCoreF (a :: b :: w'') fuel rest
                (b :: w'') hlen' (by simp)
                (fun hc => hstar (List.mem_cons_of_mem _ hc)) hpre'
              exact hp ((isPre_iff _ _).2 (List.cons_prefix_cons.2 ⟨rfl, h2⟩))
        · exact ih rest hlen' h

/-- Replacement by the all-star mask creates no new star-free
occurrences: every non-empty star-free infix of the output is an infix
of the input. -/
lemma replaceCoreF_no_create (w l : Str) (hl : l ≠ []) (hstar : star ∉ l) :
    ∀ fuel s, s.length ≤ fuel →
      l <:+: replaceCoreF w STR_MASK fuel s → l <:+: s := by
  intro fuel
  induction fuel with
  | zero =>
    intro s hlen h
    have hs : s = [] := List.eq_nil_of_length_eq_zero (Nat.le_zero.1 hlen)
    subst hs
    exact h
  | succ fuel ih =>
    intro s hlen h
    cases s with
    | nil => exact h
    | cons c rest =>
      have hlen' : rest.length ≤ fuel := by
        simp only [List.length_cons] at hlen; omega
      by_cases hp : isPre w (c :: rest) = true
      · simp only [replaceCoreF, if_pos hp] at h
        have h2 := infix_star_block l _ hl hstar STR_MASK mem_STR_MASK h
        have h3 := ih _ (by rw [List.length_drop]; omega) h2
        exact List.infix_cons (h3.trans (List.drop_suffix _ _).isInfix)
      · simp only [replaceCoreF, if_neg hp] at h
        rcases List.infix_cons_iff.1 h with h | h
        · cases l with
          | nil => exact absurd rfl hl
          | cons a l' =>
            rcases List.cons_prefix_cons.1 h with ⟨hac, hpre'⟩
            subst hac
            cases l' with
            | nil =>
              exact (List.cons_prefix_cons.2 ⟨rfl, List.nil_prefix⟩).isInfix
            | cons b l'' =>
              have h2 := starfree_prefix_replaceCoreF w fuel rest (b :: l'')
                hlen' (by simp) (fun hc => hstar (List.mem_cons_of_mem _ hc))
                hpre'
              exact (List.cons_prefix_cons.2 ⟨rfl, h2⟩).isInfix
        · exact List.infix_cons (ih rest hlen' h)

/-- If the pattern does not occur, replacement is the identity. -/
lemma replaceCoreF_id (w m : Str) :
    ∀ fuel s, s.length ≤ fuel → ¬ w <:+: s →
      replaceCoreF w m fuel s = s := by
  intro fuel
  induction fuel with
  | zero =>
    intro s hlen _
    have hs : s = [] := List.eq_nil_of_length_eq_zero (Nat.le_zero.1 hlen)
    subst hs
    rfl
  | succ fuel ih =>
    intro s hlen h
    cases s with
    | nil => rfl
    | cons c rest =>
      have hlen' : rest.length ≤ fuel := by
        simp only [List.length_cons] at hlen; omega
      by_cases hp : isPre w (c :: rest) = true
      · exact absurd ((isPre_iff _ _).1 hp).isInfix h
      · simp only [replaceCoreF, if_neg hp]
        rw [ih rest hlen' (fun h2 => h (List.infix_cons h2))]

/-- Non-empty star-free infixes of the empty-pattern replacement output
(`m ++ c1 ++ m ++ c2 ++ m ++ ...`) come from the input. -/
lemma infix_foldr_mask (l : Str) (hl : l ≠ []) (hstar : star ∉ l) :
    ∀ s : Str,
      l <:+: s.foldr (fun c acc => c :: (STR_MASK ++ acc)) [] → l <:+: s := by
  intro s
  induction s with
  | nil => intro h; exact absurd (List.eq_nil_of_infix_nil h) hl
  | cons c rest ih =>
    intro h
    rw [List.foldr_cons] at h
    rcases List.infix_cons_iff.1 h with h | h
    · cases l with
      | nil => exact absurd rfl hl
      | cons a l' =>
        rcases List.cons_prefix_cons.1 h with ⟨hac, hpre'⟩
        subst hac
        cases l' with
        | nil =>
          exact (List.cons_prefix_cons.2 ⟨rfl, List.nil_prefix⟩).isInfix
        | cons b l'' =>
          exact absurd hpre' (star_block_repels STR_MASK mem_STR_MASK
            STR_MASK_ne_nil (b :: l'') (by simp)
            (fun hc => hstar (List.mem_cons_of_mem _ hc)) _)
    · have h2 := infix_star_block l _ hl hstar STR_MASK mem_STR_MASK h
      exact List.infix_cons (ih h2)

lemma replaceAll_no_create (s w l : Str) (hl : l ≠ []) (hstar : star ∉ l)
    (h : l <:+: replaceAll s w STR_MASK) : l <:+: s := by
  unfold replaceAll replaceCore at h
  by_cases hw : w = []
  · rw [if_pos hw] at h
    exact infix_foldr_mask l hl hstar s
      (infix_star_block l _ hl hstar STR_MASK mem_STR_MASK h)
  · rw [if_neg hw] at h
    exact replaceCoreF_no_create w l hl hstar s.length s (le_refl _) h

lemma replaceAll_removes (s w : Str) (hw : w ≠ []) (hstar : star ∉ w) :
    ¬ w <:+: replaceAll s w STR_MASK := by
  unfold replaceAll replaceCore
  rw [if_neg hw]
  exact replaceCoreF_removes w hw hstar s.length s (le_refl _)

lemma replaceAll_id (s w m : Str) (h : ¬ w <:+: s) : replaceAll s w m = s := by
  by_cases hw : w = []
  · exact absurd (hw ▸ List.nil_infix) h
  · unfold replaceAll replaceCore
    rw [if_neg hw]
    exact replaceCoreF_id w m s.length s (le_refl _) h

lemma mask_string_cons (s w : Str) (ml : List Str) (rl : List (Str × Str)) :
    mask_string s (w :: ml) rl =
      mask_string
        (if w = [] then s else replaceAll s (applyRules rl w) STR_MASK)
        ml rl := rfl

lemma mask_string_no_create (l : Str) (hl : l ≠ []) (hstar : star ∉ l) :
    ∀ (ml : List Str) (rl : List (Str × Str)) (s : Str),
      ¬ l <:+: s → ¬ l <:+: mask_string s ml rl := by
  intro ml
  induction ml with
  | nil => intro rl s h; exact h
  | cons w rest ih =>
    intro rl s h
    rw [mask_string_cons]
    apply ih
    by_cases hw : w = []
    · rw [if_pos hw]; exact h
    · rw [if_neg hw]
      intro h2
      exact h (replaceAll_no_create s (applyRules rl w) l hl hstar h2)

/-- C5 (amended).  For every non-empty word of the mask list whose
rewritten form (the word after applying the rewrite rules) is non-empty
and contains no occurrence of the mask character `*`, the rewritten word
does not occur anywhere in the output of `mask_string`; and when no
rewritten mask word occurs in the input at all, the input is left
untouched (`mask_string` returns it unchanged).  The `*`-freeness
condition is forced by the counterexample: the mask token itself is made
of `*`, so replacing a word that contains `*` can re-create or retain
occurrences. -/
theorem mask_string_removes_masked_words (s : Str) (ml : List Str)
    (rl : List (Str × Str)) :
    (∀ w ∈ ml, w ≠ [] → applyRules rl w ≠ [] → star ∉ applyRules rl w →
        ¬ applyRules rl w <:+: mask_string s ml rl)
    ∧ ((∀ w ∈ ml, w ≠ [] → applyRules rl w ≠ [] ∧ ¬ applyRules rl w <:+: s) →
        mask_string s ml rl = s) := by
  constructor
  · induction ml generalizing s with
    | nil => intro w hw; exact absurd hw (List.not_mem_nil w)
    | cons w0 rest ih =>
      intro w hw hwne hrwne hstar
      rw [mask_string_cons]
      rcases List.mem_cons.1 hw with he | hmem
      · subst he
        rw [if_neg hwne]
        exact mask_string_no_create _ hrwne hstar rest rl _
          (replaceAll_removes s _ hrwne hstar)
      · exact ih _ w hmem hwne hrwne hstar
  · induction ml generalizing s with
    | nil => intro _; rfl
    | cons w0 rest ih =>
      intro hH
      rw [mask_string_cons]
      by_cases hw0 : w0 = []
      · rw [if_pos hw0]
        exact ih s (fun w hw => hH w (List.mem_cons_of_mem _ hw))
      · rw [if_neg hw0]
        rcases hH w0 (List.mem_cons_self _ _) hw0 with ⟨_, hni⟩
        rw [replaceAll_id s _ STR_MASK hni]
        exact ih s (fun w hw => hH w (List.mem_cons_of_mem _ hw))

/-- C5 as universally stated is false: for the non-empty mask word `*`
(rewritten to itself by an empty rule list), the output of `mask_string`
is the mask token `********`, which still contains the word `*` — the
masked-out occurrence is replaced by a string containing the word
itself. -/
theorem mask_string_star_word_counterexample :
    ("*".toList ≠ [] ∧ applyRules [] ("*".toList) = "*".toList)
    ∧ mask_string ("*".toList) [("*".toList)] [] = STR_MASK
    ∧ ("*".toList) <:+: mask_string ("*".toList) [("*".toList)] [] := by
  refine ⟨⟨by decide, by decide⟩, by decide, by decide⟩

/-- Witness for C5's amended theorem on the spec's own scenario:
masking `echo secret123` with mask word `secret123` leaves no occurrence
of the word. -/
theorem mask_string_removes_masked_words_witness :
    ¬ ("secret123".toList) <:+:
        mask_string ("echo secret123".toList) [("secret123".toList)] [] :=
  (mask_string_removes_masked_words ("echo secret123".toList)
      [("secret123".toList)] []).1 ("secret123".toList)
    (by decide) (by decide) (by decide) (by decide)

end Kanzo
